import Mathlib

/-!
Verification of the log-profiler's classifier, stack-reconstruction engine and
renderers (src/Profiler.py) against its natural-language specification.

Embedding conventions:
* Instants are integers (a count of milliseconds since the epoch).  `datetime`
  subtraction and comparison map exactly onto integer subtraction and
  comparison, so `delta.total_seconds() * 1000` is `end - start` on this
  timeline and `timestamp() * 1_000_000` is `1000 * instant`.
* Regular-expression matching is treated as an opaque Boolean predicate on the
  message, exactly as the spec's interface boundary prescribes
  (`re.Pattern.search` becomes a field of type `String → Bool`).
* Python's mutable `TraceNode` graph (children plus a parent back-reference) is
  embedded as a pure rose tree.  A node that is still open lives on its
  thread's stack and carries the children that have already closed; it is
  attached to its parent's `children` at the moment it closes (in the source
  the attachment happens at start time through the parent pointer, but the
  resulting trees, stacks and forest are the same, and the parent field is
  used for nothing else).
* `dict` is embedded as an insertion-ordered association list, matching
  CPython's key-insertion order, which the source observes when it iterates
  over `thread_stacks.items()` in `_close_dangling_events`.
-/

/-- A classified signal, the classifier's verdict about one log line. -/
inductive Signal where
  | startSig (name : String)
  | endSig (name : String)
deriving DecidableEq, Repr

/-- One call-tree node (class `TraceNode`, src/Profiler.py lines 8-31).
`end_time = none` models Python's `self.end_time = None` for a still-open
node. -/
inductive TraceNode where
  | mk (name : String) (start_time : Int) (end_time : Option Int)
       (thread_id : Int) (children : List TraceNode)

def TraceNode.name : TraceNode → String
  | .mk n _ _ _ _ => n

def TraceNode.start_time : TraceNode → Int
  | .mk _ s _ _ _ => s

def TraceNode.end_time : TraceNode → Option Int
  | .mk _ _ e _ _ => e

def TraceNode.thread_id : TraceNode → Int
  | .mk _ _ _ t _ => t

def TraceNode.children : TraceNode → List TraceNode
  | .mk _ _ _ _ cs => cs

/-- `TraceNode.close(end_time)` (line 18-19): set the end instant. -/
def TraceNode.close : TraceNode → Int → TraceNode
  | .mk n s _ tid cs, t => .mk n s (some t) tid cs

/-- Append one (closed) child at the end of the children list, the pure
counterpart of `parent.children.append(node)`. -/
def TraceNode.addChild : TraceNode → TraceNode → TraceNode
  | .mk n s e tid cs, c => .mk n s e tid (cs ++ [c])

/-- Append a whole batch of children at the end of the children list. -/
def TraceNode.addChildren : TraceNode → List TraceNode → TraceNode
  | .mk n s e tid cs, ts => .mk n s e tid (cs ++ ts)

/-- `duration_ms` (lines 21-25): `0` while the node is open, otherwise
`end - start` (with millisecond instants, `total_seconds() * 1000` is exactly
the instant difference). -/
def TraceNode.duration_ms : TraceNode → Int
  | .mk _ s e _ _ =>
    match e with
    | none => 0
    | some t => t - s

/-- The summed duration of a list of (direct) children, the generator
expression in `self_time_ms`. -/
def childDurationSum (cs : List TraceNode) : Int :=
  (cs.map TraceNode.duration_ms).sum

/-- `self_time_ms` (lines 27-31): `max(0, duration - Σ children.duration)`. -/
def TraceNode.self_time_ms (n : TraceNode) : Int :=
  max 0 (n.duration_ms - childDurationSum n.children)

mutual
/-- Total number of nodes in the tree rooted at this node. -/
def TraceNode.size : TraceNode → Nat
  | .mk _ _ _ _ cs => 1 + sizeList cs

/-- Total number of nodes in a list of trees. -/
def sizeList : List TraceNode → Nat
  | [] => 0
  | c :: cs => c.size + sizeList cs
end

mutual
/-- Every node of the tree has its end instant set and no earlier than its
start instant, i.e. no node has a missing duration and no node has a negative
duration. -/
def TraceNode.closedNonneg : TraceNode → Bool
  | .mk _ s e _ cs =>
    (match e with
     | some t => decide (s ≤ t)
     | none => false) && closedNonnegList cs

/-- `TraceNode.closedNonneg` for every tree of a list. -/
def closedNonnegList : List TraceNode → Bool
  | [] => true
  | c :: cs => c.closedNonneg && closedNonnegList cs
end

/-- One record of the exported trace-event list (the dict literals in
`to_chrome_trace_events`, lines 33-60). -/
structure TraceEvent where
  name : String
  cat : String
  ph : String
  ts : Int
  pid : Int
  tid : Int
deriving DecidableEq, Repr

/-- The begin record a node emits (`ph = "B"`); with millisecond instants,
`timestamp() * 1_000_000` is `1000 * instant`. -/
def chromeBegin (pid : Int) : TraceNode → TraceEvent
  | .mk n s _ tid _ => ⟨n, "PERF", "B", 1000 * s, pid, tid⟩

/-- The end record a node emits (`ph = "E"`); when the node is still open the
source synthesizes `start + 100` microseconds (line 51). -/
def chromeEnd (pid : Int) : TraceNode → TraceEvent
  | .mk n s e tid _ =>
    ⟨n, "PERF", "E",
     (match e with
      | some t => 1000 * t
      | none => 1000 * s + 100), pid, tid⟩

mutual
/-- `TraceNode.to_chrome_trace_events` (lines 33-60): begin record, then the
children's records in order, then the end record. -/
def TraceNode.to_chrome_trace_events (pid : Int) : TraceNode → List TraceEvent
  | .mk n s e tid cs =>
    chromeBegin pid (.mk n s e tid cs)
      :: childrenTraceEvents pid cs ++ [chromeEnd pid (.mk n s e tid cs)]

/-- The `for child in self.children: events.extend(...)` loop. -/
def childrenTraceEvents (pid : Int) : List TraceNode → List TraceEvent
  | [] => []
  | c :: cs => c.to_chrome_trace_events pid ++ childrenTraceEvents pid cs
end

/-- One entry of the configuration's `events` list: name, start pattern, end
pattern and an OPTIONAL `threshold_ms` key (`evt.get('threshold_ms', 0)`,
line 77, supplies the default).  The compiled regular expressions are opaque
Boolean predicates on the message. -/
structure EventConfig where
  name : String
  start_regex : String → Bool
  end_regex : String → Bool
  threshold_ms : Option Int

/-- One compiled event definition as stored in `self.event_defs`
(lines 72-78). -/
structure EventDef where
  name : String
  start_re : String → Bool
  end_re : String → Bool
  threshold : Int

/-- The loop body of `LogProfiler.__init__` (lines 72-78): compile the
patterns and default a missing `threshold_ms` to `0`. -/
def compileEventDef (evt : EventConfig) : EventDef :=
  { name := evt.name
    start_re := evt.start_regex
    end_re := evt.end_regex
    threshold := evt.threshold_ms.getD 0 }

/-- The classification decision taken by the loop of `_check_events`
(lines 116-150): walk the definitions in configured order; for each, test the
start pattern first, then the end pattern; the first hit decides, and a line
that hits nothing produces no signal. -/
def classify (defs : List EventDef) (message : String) : Option Signal :=
  match defs with
  | [] => none
  | d :: rest =>
    if d.start_re message then some (Signal.startSig d.name)
    else if d.end_re message then some (Signal.endSig d.name)
    else classify rest message

/-- Modelled from the spec: "return the first definition (in configured
order) whose start predicate matches, tagged as a start signal; if none
matches, return the first whose end predicate matches, tagged as an end
signal; otherwise return no match".  All start predicates are given priority
over every end predicate, unlike the source's interleaved loop. -/
def classifySpecOrder (defs : List EventDef) (message : String) : Option Signal :=
  match defs.find? (fun d => d.start_re message) with
  | some d => some (Signal.startSig d.name)
  | none =>
    match defs.find? (fun d => d.end_re message) with
    | some d => some (Signal.endSig d.name)
    | none => none

/-- The engine's mutable state: `self.thread_stacks` (a dict from thread id to
a stack of open nodes, top of stack first here) and `self.completed_roots`
(the Forest). -/
structure ProfilerState where
  thread_stacks : List (Int × List TraceNode)
  completed_roots : List TraceNode

/-- Dict lookup `self.thread_stacks[tid]` / membership `tid in
self.thread_stacks`. -/
def lookupStack (m : List (Int × List TraceNode)) (tid : Int) :
    Option (List TraceNode) :=
  match m with
  | [] => none
  | (k, v) :: rest => if k = tid then some v else lookupStack rest tid

/-- Dict assignment `self.thread_stacks[tid] = s`: overwrite an existing key
in place, or append a fresh key at the end (CPython insertion order). -/
def setStack (m : List (Int × List TraceNode)) (tid : Int)
    (s : List TraceNode) : List (Int × List TraceNode) :=
  match m with
  | [] => [(tid, s)]
  | (k, v) :: rest =>
    if k = tid then (k, s) :: rest else (k, v) :: setStack rest tid s

/-- The start branch of `_check_events` (lines 119-133): build the node,
create the thread's stack if absent, and push.  (In the source the new node is
also appended to the stack top's `children` right away; in this pure embedding
it is attached when it closes, producing the same trees.) -/
def startAction (st : ProfilerState) (tid : Int) (timestamp : Int)
    (name : String) : ProfilerState :=
  let stack := (lookupStack st.thread_stacks tid).getD []
  let new_node : TraceNode := .mk name timestamp none tid []
  { st with thread_stacks := setStack st.thread_stacks tid (new_node :: stack) }

/-- The end branch of `_check_events` (lines 136-150): if the thread has a
non-empty stack and the top node's name equals the definition's name, close
the top node and pop it — into `completed_roots` when the stack empties,
otherwise into its parent's children; in every other case do nothing. -/
def endAction (st : ProfilerState) (tid : Int) (timestamp : Int)
    (name : String) : ProfilerState :=
  match lookupStack st.thread_stacks tid with
  | some (node :: rest) =>
    if node.name = name then
      let closed := node.close timestamp
      match rest with
      | [] =>
        { thread_stacks := setStack st.thread_stacks tid []
          completed_roots := st.completed_roots ++ [closed] }
      | parent :: rest' =>
        { st with
            thread_stacks :=
              setStack st.thread_stacks tid (parent.addChild closed :: rest') }
    else st
  | _ => st

/-- `LogProfiler._check_events(tid, timestamp, message)` (lines 116-150):
the loop over `self.event_defs`, testing each definition's start pattern and
then its end pattern, acting on the first hit. -/
def check_events (defs : List EventDef) (st : ProfilerState) (tid : Int)
    (timestamp : Int) (message : String) : ProfilerState :=
  match defs with
  | [] => st
  | d :: rest =>
    if d.start_re message then startAction st tid timestamp d.name
    else if d.end_re message then endAction st tid timestamp d.name
    else check_events rest st tid timestamp message

/-- The engine step on an already-classified signal (the spec's
`observe(threadId, instant, signal)`); `check_events_eq_classify` below ties
it to the source's fused loop. -/
def observe (st : ProfilerState) (tid : Int) (timestamp : Int) :
    Signal → ProfilerState
  | .startSig n => startAction st tid timestamp n
  | .endSig n => endAction st tid timestamp n

/-- Feed a sequence of timed signals for one thread to the engine, in order. -/
def processSignals (st : ProfilerState) (tid : Int) :
    List (Int × Signal) → ProfilerState
  | [] => st
  | (t, sig) :: rest => processSignals (observe st tid t sig) tid rest

/-- A Python value passed as a positional argument (only the payloads the
call sites of `_check_events` actually use). -/
inductive PyVal where
  | intVal (n : Int)
  | strVal (s : String)
deriving DecidableEq, Repr

/-- A dynamic call of the bound method `self._check_events` with a positional
argument list, mirroring CPython's arity check: the method's signature
(line 116) binds exactly three arguments besides `self` — `tid`, `timestamp`,
`message` — and any other argument count raises `TypeError` before the body
runs. -/
def callCheckEvents (defs : List EventDef) (st : ProfilerState)
    (args : List PyVal) : Except String ProfilerState :=
  match args with
  | [PyVal.intVal tid, PyVal.intVal timestamp, PyVal.strVal message] =>
    Except.ok (check_events defs st tid timestamp message)
  | _ => Except.error "TypeError"

/-- The tail of the per-line body of `process_file` (lines 89-114): once the
header pattern has matched and `(time_str, uid, pid, tid, level, tag,
message)` have been extracted and converted, the source executes
`self._check_events(pid, tid, current_time, message)` — four positional
arguments. -/
def processMatchedLine (defs : List EventDef) (st : ProfilerState)
    (pid tid : Int) (current_time : Int) (message : String) :
    Except String ProfilerState :=
  callCheckEvents defs st
    [PyVal.intVal pid, PyVal.intVal tid, PyVal.intVal current_time,
     PyVal.strVal message]

/-- The profiler operations the `__main__` block can invoke. -/
inductive MainStep where
  | loadConfig
  | processFile
  | printTextReport
  | exportChromeTrace
  | closeDanglingEvents
deriving DecidableEq, Repr

/-- The sequence of profiler operations the `__main__` block performs
(lines 196-205): construct the profiler (loading the configuration), process
the log file, print the text report, export the trace.  `_close_dangling_events`
is invoked nowhere in the file. -/
def mainSteps : List MainStep :=
  [MainStep.loadConfig, MainStep.processFile, MainStep.printTextReport,
   MainStep.exportChromeTrace]

/-- The forced-closure step applied to each popped node in
`_close_dangling_events` (lines 157-159): `if not node.end_time:
node.close(node.start_time)`. -/
def forceCloseNode (node : TraceNode) : TraceNode :=
  match node.end_time with
  | none => node.close node.start_time
  | some _ => node

/-- The body of the `while stack:` loop of `_close_dangling_events`
(lines 155-161), with the just-popped node as explicit loop state: pop the
top node, force-close it, hand it to the node below (its parent) and
continue; the last iteration force-closes the bottom-most node, which is the
tree the emptied stack leaves behind. -/
def collapseNE (node : TraceNode) : List TraceNode → TraceNode
  | [] => forceCloseNode node
  | parent :: rest => collapseNE (parent.addChild (forceCloseNode node)) rest

/-- The full `while stack:` loop of `_close_dangling_events` for one thread's
stack (top of stack first): an empty stack contributes nothing, a non-empty
stack is drained by `collapseNE` and its bottom-most node is appended to the
Forest accumulator. -/
def finalizeStack : List TraceNode → List TraceNode → List TraceNode
  | [], roots => roots
  | node :: rest, roots => roots ++ [collapseNE node rest]

/-- The root (if any) `_close_dangling_events` appends for one thread's
stack. -/
def collapseStack : List TraceNode → Option TraceNode
  | [] => none
  | node :: rest => some (collapseNE node rest)

/-- `LogProfiler._close_dangling_events` (lines 152-161): for every entry of
`thread_stacks` in insertion order, drain the stack (leaving it empty) and
append the resulting root, if the stack was non-empty, to
`completed_roots`. -/
def close_dangling_events (st : ProfilerState) : ProfilerState :=
  { thread_stacks := st.thread_stacks.map (fun p => (p.1, []))
    completed_roots :=
      st.thread_stacks.foldl (fun roots p => finalizeStack p.2 roots)
        st.completed_roots }

/-- The threshold lookup of `_print_node_recursive` (line 176):
`next((d['threshold'] for d in self.event_defs if d['name'] == node.name), 0)`. -/
def findThreshold (defs : List EventDef) (name : String) : Int :=
  match defs.find? (fun d => d.name == name) with
  | some d => d.threshold
  | none => 0

/-- The warn/ok marker of `_print_node_recursive` (line 177):
`"🐢" if node.duration_ms > threshold else "✅"`. -/
def statusIcon (defs : List EventDef) (node : TraceNode) : String :=
  if node.duration_ms > findThreshold defs node.name then "🐢" else "✅"

/-- `LogProfiler.export_chrome_trace` (lines 185-193): concatenate every
completed root's trace events, in Forest order, with the default `pid = 1`. -/
def export_chrome_trace (roots : List TraceNode) : List TraceEvent :=
  roots.foldl (fun acc root => acc ++ root.to_chrome_trace_events 1) []

/-- `x` is a strict descendant of `w`: a child of `w`, or a descendant of a
child of `w`. -/
inductive Descendant : TraceNode → TraceNode → Prop where
  | child {c w : TraceNode} : c ∈ w.children → Descendant c w
  | step {x c w : TraceNode} : Descendant x c → c ∈ w.children → Descendant x w

/-- A well-formed, properly nested sequence of timed start/end signals: a
forest of balanced trees, each tree being a start signal, a balanced inner
sequence, and a matching (same-name) end signal. -/
inductive BalForest : List (Int × Signal) → Prop where
  | nil : BalForest []
  | node (n : String) (t₁ t₂ : Int) (inner rest : List (Int × Signal)) :
      BalForest inner → BalForest rest →
      BalForest ((t₁, Signal.startSig n) :: inner
                   ++ [(t₂, Signal.endSig n)] ++ rest)

/-- The number of start signals in a sequence (the number of start/end pairs
of a balanced sequence). -/
def countStarts : List (Int × Signal) → Nat
  | [] => 0
  | (_, Signal.startSig _) :: rest => 1 + countStarts rest
  | (_, Signal.endSig _) :: rest => countStarts rest

/-- A concrete event definition for event "A", with literal start/end
markers standing in for the compiled patterns. -/
def defA : EventDef :=
  { name := "A", start_re := fun m => m == "START A",
    end_re := fun m => m == "END A", threshold := 0 }

/-- A concrete event definition for event "B". -/
def defB : EventDef :=
  { name := "B", start_re := fun m => m == "START B",
    end_re := fun m => m == "END B", threshold := 0 }

/-- A concrete two-event configuration used by the concrete runs below. -/
def exDefs : List EventDef := [defA, defB]

/-- The engine state at construction time: no thread stacks, empty Forest. -/
def emptyState : ProfilerState := ⟨[], []⟩

theorem check_events_eq_classify (defs : List EventDef) (st : ProfilerState)
    (tid timestamp : Int) (message : String) :
    check_events defs st tid timestamp message =
      match classify defs message with
      | none => st
      | some (Signal.startSig n) => startAction st tid timestamp n
      | some (Signal.endSig n) => endAction st tid timestamp n := by
  induction defs with
  | nil => rfl
  | cons d rest ih =>
    simp only [check_events, classify]
    cases h1 : d.start_re message with
    | true => simp
    | false =>
      cases h2 : d.end_re message with
      | true => simp
      | false => simpa using ih

theorem processSignals_append (st : ProfilerState) (tid : Int)
    (a b : List (Int × Signal)) :
    processSignals st tid (a ++ b) = processSignals (processSignals st tid a) tid b := by
  induction a generalizing st with
  | nil => rfl
  | cons x rest ih =>
    cases x
    simp only [List.cons_append, processSignals]
    exact ih _

theorem addChildren_nil (p : TraceNode) : p.addChildren [] = p := by
  cases p; simp [TraceNode.addChildren]

theorem addChild_addChildren (p T : TraceNode) (Ts : List TraceNode) :
    (p.addChild T).addChildren Ts = p.addChildren (T :: Ts) := by
  cases p; simp [TraceNode.addChild, TraceNode.addChildren]

theorem countStarts_append (a b : List (Int × Signal)) :
    countStarts (a ++ b) = countStarts a + countStarts b := by
  induction a with
  | nil => simp [countStarts]
  | cons x rest ih =>
    obtain ⟨t, sg⟩ := x
    cases sg
    · simp [countStarts, ih]; omega
    · simp [countStarts, ih]

/-- A definition whose end pattern matches everything and whose start pattern
matches nothing. -/
def defEndOnly : EventDef :=
  { name := "one", start_re := fun _ => false, end_re := fun _ => true,
    threshold := 0 }

/-- A definition whose start pattern matches everything and whose end pattern
matches nothing. -/
def defStartOnly : EventDef :=
  { name := "two", start_re := fun _ => true, end_re := fun _ => false,
    threshold := 0 }

/-- Claim C1 (counterexample): with the configured order `[one, two]`, the
message matches the start predicate of definition `two`, yet classification
returns an END signal for definition `one` — the loop tests each definition's
end pattern before moving to the next definition, so start predicates do not
take global priority as the claim states; the spec-ordered classifier
disagrees with the source on this input. -/
theorem classify_start_priority_counterexample :
    defStartOnly.start_re "msg" = true ∧
    classify [defEndOnly, defStartOnly] "msg" = some (Signal.endSig "one") ∧
    classifySpecOrder [defEndOnly, defStartOnly] "msg"
      = some (Signal.startSig "two") :=
  ⟨rfl, rfl, rfl⟩

/-- Claim C1 (amended): classification walks the definitions in configured
order and acts on the first definition whose start or end predicate matches
the message, testing the start predicate before the end predicate within each
definition — so an earlier definition's end predicate outranks a later
definition's start predicate; a start signal is returned when the winning
definition matched by its start predicate, an end signal when it matched only
by its end predicate; if no definition matches, the line is ignored, and at
most one signal is produced per line. -/
theorem classify_first_definition_wins (defs : List EventDef)
    (message : String) :
    classify defs message =
      (defs.find? (fun d => d.start_re message || d.end_re message)).map
        (fun d => if d.start_re message then Signal.startSig d.name
                  else Signal.endSig d.name) := by
  induction defs with
  | nil => rfl
  | cons d rest ih =>
    simp only [classify, List.find?]
    cases h1 : d.start_re message
    · cases h2 : d.end_re message
      · simpa [h1, h2] using ih
      · simp [h1, h2]
    · simp [h1]

/-- Claim C2: for every matched log line, `process_file` calls
`self._check_events(pid, tid, current_time, message)` with four positional
arguments while the method signature binds only three besides `self`, so the
call raises `TypeError` on every matching line and no classified signal is
ever delivered to the stack engine through `process_file`. -/
theorem process_file_arity_mismatch (defs : List EventDef)
    (st : ProfilerState) (pid tid current_time : Int) (message : String) :
    processMatchedLine defs st pid tid current_time message
      = Except.error "TypeError" := rfl

/-- Claim C3: the `__main__` block never invokes `_close_dangling_events`
(the spec's `finalize()`): it runs zero times, not exactly once, even though
the text report and trace export do run — the code contradicts the spec's
required termination behaviour. -/
theorem finalize_never_invoked :
    mainSteps.count MainStep.closeDanglingEvents = 0 ∧
    mainSteps.count MainStep.printTextReport = 1 ∧
    mainSteps.count MainStep.exportChromeTrace = 1 := by decide

/-- Claim C4 (counterexample): after the run `START A` at 0, `START B` at 1,
`END B` at 5 followed by forced closure, the Forest's only root is `A` with
`end = start = 0` and child `B` of duration 4; for this node
`selfTime + Σ children.duration = 4` while `duration = 0`, so self-time
conservation fails on a node closed by the zero-duration forced closure. -/
theorem self_time_conservation_counterexample :
    (close_dangling_events
        (check_events exDefs
          (check_events exDefs
            (check_events exDefs emptyState 1 0 "START A") 1 1 "START B")
          1 5 "END B")).completed_roots
      = [TraceNode.mk "A" 0 (some 0) 1 [TraceNode.mk "B" 1 (some 5) 1 []]] ∧
    (TraceNode.mk "A" 0 (some 0) 1
        [TraceNode.mk "B" 1 (some 5) 1 []]).self_time_ms
      + childDurationSum
          (TraceNode.mk "A" 0 (some 0) 1
            [TraceNode.mk "B" 1 (some 5) 1 []]).children = 4 ∧
    (TraceNode.mk "A" 0 (some 0) 1
        [TraceNode.mk "B" 1 (some 5) 1 []]).duration_ms = 0 ∧
    (4 : Int) ≠ 0 :=
  ⟨rfl, by decide, by decide, by decide⟩

/-- Claim C4 (amended): `selfTime` is `max(0, duration − Σ
children.duration)`, so `selfTime ≥ 0` holds for every node, and the
conservation `selfTime + Σ children.duration = duration` holds exactly when
`Σ children.duration ≤ duration`; a node closed by the zero-duration forced
closure whose children have positive total duration violates conservation. -/
theorem self_time_amended (node : TraceNode) :
    0 ≤ node.self_time_ms ∧
    (node.self_time_ms + childDurationSum node.children = node.duration_ms ↔
      childDurationSum node.children ≤ node.duration_ms) := by
  refine ⟨le_max_left 0 _, ?_⟩
  unfold TraceNode.self_time_ms
  rcases le_total (childDurationSum node.children) node.duration_ms with h | h
  · rw [max_eq_right (by omega)]
    constructor <;> intro <;> omega
  · rw [max_eq_left (by omega)]
    constructor <;> intro <;> omega

theorem findThreshold_map (cfgs : List EventConfig) (nm : String) :
    findThreshold (cfgs.map compileEventDef) nm =
      ((cfgs.find? (fun c => c.name == nm)).bind
        (fun c => c.threshold_ms)).getD 0 := by
  induction cfgs with
  | nil => rfl
  | cons c rest ih =>
    simp only [List.map_cons]
    unfold findThreshold
    cases h : c.name == nm
    · rw [List.find?_cons_of_neg _ (by simpa [compileEventDef] using h),
          List.find?_cons_of_neg _ (by simpa using h)]
      unfold findThreshold at ih
      exact ih
    · rw [List.find?_cons_of_pos _ (by simpa [compileEventDef] using h),
          List.find?_cons_of_pos _ (by simpa using h)]
      simp [compileEventDef]

/-- A configuration entry for event "A" without a `threshold_ms` key. -/
def cfgNoThreshold : EventConfig :=
  { name := "A", start_regex := fun m => m == "START A",
    end_regex := fun m => m == "END A", threshold_ms := none }

/-- Claim C5 (counterexample): with a configuration whose only event
definition "A" has NO configured threshold, a complete run
(`START A` at 0, `END A` at 5) leaves a root of duration 5 in the Forest, and
the text report marks that node warn (🐢) — a node whose definition has no
configured threshold can warn, because the missing key defaults to 0. -/
theorem warn_marker_counterexample :
    cfgNoThreshold.threshold_ms = none ∧
    (check_events [compileEventDef cfgNoThreshold]
        (check_events [compileEventDef cfgNoThreshold] emptyState 1 0
          "START A") 1 5 "END A").completed_roots
      = [TraceNode.mk "A" 0 (some 5) 1 []] ∧
    statusIcon [compileEventDef cfgNoThreshold]
      (TraceNode.mk "A" 0 (some 5) 1 []) = "🐢" :=
  ⟨rfl, rfl, rfl⟩

/-- Claim C5 (amended): the report marks a node warn exactly when its
duration strictly exceeds the effective threshold of the first configured
definition bearing the node's name, where the effective threshold is the
configured `threshold_ms` when present and `0` otherwise (also `0` when no
definition bears the node's name) — so a node whose definition has no
configured threshold warns exactly when its duration is positive. -/
theorem warn_marker_amended (cfgs : List EventConfig) (node : TraceNode) :
    statusIcon (cfgs.map compileEventDef) node = "🐢" ↔
      node.duration_ms >
        ((cfgs.find? (fun c => c.name == node.name)).bind
          (fun c => c.threshold_ms)).getD 0 := by
  unfold statusIcon
  rw [findThreshold_map cfgs node.name]
  by_cases h : node.duration_ms >
      ((cfgs.find? (fun c => c.name == node.name)).bind
        (fun c => c.threshold_ms)).getD 0
  · simp [h]
  · simp [h]

/-- Claim C10: the forced closure of `_close_dangling_events` sets a dangling
node's end equal to its own start unconditionally — whatever its children
hold — and consequently the run `START A` at 10, `START B` at 12, `END B` at
20 followed by forced closure yields a Forest whose root `A` ends at instant
10, strictly earlier than its child `B`'s end instant 20, with duration
0 strictly smaller than its children's summed duration 8. -/
theorem forced_closure_ignores_children :
    (∀ (nm : String) (s tidd : Int) (cs roots : List TraceNode),
      finalizeStack [TraceNode.mk nm s none tidd cs] roots
        = roots ++ [TraceNode.mk nm s (some s) tidd cs]) ∧
    (close_dangling_events
        (check_events exDefs
          (check_events exDefs
            (check_events exDefs emptyState 1 10 "START A") 1 12 "START B")
          1 20 "END B")).completed_roots
      = [TraceNode.mk "A" 10 (some 10) 1
          [TraceNode.mk "B" 12 (some 20) 1 []]] ∧
    (TraceNode.mk "A" 10 (some 10) 1
        [TraceNode.mk "B" 12 (some 20) 1 []]).end_time = some 10 ∧
    (TraceNode.mk "B" 12 (some 20) 1 []).end_time = some 20 ∧
    ((10 : Int) < 20) ∧
    (TraceNode.mk "A" 10 (some 10) 1
        [TraceNode.mk "B" 12 (some 20) 1 []]).duration_ms
      < childDurationSum
          (TraceNode.mk "A" 10 (some 10) 1
            [TraceNode.mk "B" 12 (some 20) 1 []]).children :=
  ⟨fun _ _ _ _ _ => rfl, rfl, rfl, rfl, by decide, by decide⟩

theorem endAction_noop (st : ProfilerState) (tid timestamp : Int) (n : String)
    (hmm : match lookupStack st.thread_stacks tid with
           | some (top :: _) => top.name ≠ n
           | _ => True) :
    endAction st tid timestamp n = st := by
  unfold endAction
  cases hl : lookupStack st.thread_stacks tid with
  | none => rfl
  | some s =>
    cases s with
    | nil => rfl
    | cons top rest =>
      rw [hl] at hmm
      cases rest with
      | nil => simp [hmm]
      | cons parent rest' => simp [hmm]

/-- Claim C6: an end signal — a message the classifier resolves to the end
pattern of some definition named `n` — leaves the whole engine state (every
thread's stack and the Forest) unchanged whenever the signal's thread has no
stack, an empty stack, or a top node whose name differs from `n`: the signal
is silently discarded, unwinding nothing and raising nothing. -/
theorem mismatched_end_noop (defs : List EventDef) (st : ProfilerState)
    (tid timestamp : Int) (message : String) (n : String)
    (hc : classify defs message = some (Signal.endSig n))
    (hmm : match lookupStack st.thread_stacks tid with
           | some (top :: _) => top.name ≠ n
           | _ => True) :
    check_events defs st tid timestamp message = st := by
  rw [check_events_eq_classify, hc]
  exact endAction_noop st tid timestamp n hmm

/-- Witness for claim C6: with definitions `[A, B]`, state whose thread 1
stack holds the open node `B`, and message `END A`, the classifier yields an
end signal for `A`, the stack top's name differs, and `_check_events` returns
the state unchanged. -/
theorem mismatched_end_noop_witness :
    classify exDefs "END A" = some (Signal.endSig "A") ∧
    (TraceNode.mk "B" 0 none 1 []).name ≠ "A" ∧
    check_events exDefs ⟨[(1, [TraceNode.mk "B" 0 none 1 []])], []⟩ 1 7 "END A"
      = ⟨[(1, [TraceNode.mk "B" 0 none 1 []])], []⟩ :=
  have h2 : (TraceNode.mk "B" 0 none 1 []).name ≠ "A" := by decide
  ⟨rfl, h2,
    mismatched_end_noop exDefs ⟨[(1, [TraceNode.mk "B" 0 none 1 []])], []⟩
      1 7 "END A" "A" rfl h2⟩

/-- Invariant of a node reachable on a thread stack (or mid-collapse): its
own end instant, if set, is no earlier than its start, and all its attached
children are fully closed with nonnegative durations. -/
def nodeOk (node : TraceNode) : Prop :=
  (match node.end_time with
   | none => True
   | some t => node.start_time ≤ t) ∧
  closedNonnegList node.children = true

theorem closedNonnegList_append (a b : List TraceNode) :
    closedNonnegList (a ++ b) = (closedNonnegList a && closedNonnegList b) := by
  induction a with
  | nil => simp [closedNonnegList]
  | cons c cs ih => simp [closedNonnegList, ih, Bool.and_assoc]

theorem closedNonnegList_forall (l : List TraceNode) :
    closedNonnegList l = true ↔ ∀ c ∈ l, c.closedNonneg = true := by
  induction l with
  | nil => simp [closedNonnegList]
  | cons c cs ih => simp [closedNonnegList, ih]

theorem forceCloseNode_closedNonneg (node : TraceNode) (h : nodeOk node) :
    (forceCloseNode node).closedNonneg = true := by
  obtain ⟨h1, h2⟩ := h
  cases node with
  | mk n s e tid cs =>
    simp only [TraceNode.children] at h2
    cases e with
    | none =>
      simp [forceCloseNode, TraceNode.end_time, TraceNode.close,
        TraceNode.start_time, TraceNode.closedNonneg, h2]
    | some t =>
      simp only [TraceNode.end_time, TraceNode.start_time] at h1
      simp [forceCloseNode, TraceNode.end_time, TraceNode.closedNonneg, h1, h2]

theorem collapseNE_closedNonneg (rest : List TraceNode) :
    ∀ node : TraceNode, nodeOk node →
    (∀ p ∈ rest, p.end_time = none ∧ closedNonnegList p.children = true) →
    (collapseNE node rest).closedNonneg = true := by
  induction rest with
  | nil => intro node h _; exact forceCloseNode_closedNonneg node h
  | cons parent rest' ih =>
    intro node h hrest
    simp only [collapseNE]
    apply ih
    · obtain ⟨hpe, hpc⟩ := hrest parent (List.mem_cons_self _ _)
      cases parent with
      | mk pn ps pe ptid pcs =>
        simp only [TraceNode.end_time] at hpe
        subst hpe
        simp only [TraceNode.children] at hpc
        refine ⟨trivial, ?_⟩
        simp only [TraceNode.addChild, TraceNode.children]
        rw [closedNonnegList_append]
        simp [closedNonnegList, hpc, forceCloseNode_closedNonneg node h]
    · intro p hp; exact hrest p (List.mem_cons_of_mem _ hp)

theorem finalizeStack_eq (s roots : List TraceNode) :
    finalizeStack s roots = roots ++ (collapseStack s).toList := by
  cases s <;> simp [finalizeStack, collapseStack]

theorem fold_finalize (l : List (Int × List TraceNode))
    (acc : List TraceNode) :
    l.foldl (fun roots p => finalizeStack p.2 roots) acc
      = acc ++ l.filterMap (fun p => collapseStack p.2) := by
  induction l generalizing acc with
  | nil => simp
  | cons p l' ih =>
    rw [List.foldl_cons, ih, finalizeStack_eq, List.filterMap_cons]
    cases collapseStack p.2 <;> simp

theorem filterMap_collapse_length (l : List (Int × List TraceNode)) :
    (l.filterMap (fun p => collapseStack p.2)).length
      = l.countP (fun p => !p.2.isEmpty) := by
  induction l with
  | nil => simp
  | cons p l' ih =>
    rcases p with ⟨tid, s⟩
    cases s with
    | nil =>
      rw [List.filterMap_cons_none (by rfl)]
      simp [List.countP_cons, ih]
    | cons node rest =>
      rw [List.filterMap_cons_some (by rfl)]
      simp [List.countP_cons, ih]

/-- Claim C7: under the stack invariants that actually hold at end-of-stream
— every Forest tree is fully closed with nonnegative durations, and every
node still on a stack has its end unset and only closed, nonnegative-duration
children — `_close_dangling_events` empties every thread's stack, appends to
the Forest exactly one new root per non-empty stack (the collapse of that
stack, whose bottom-most node it is, every popped node with unset end being
force-closed with `end = start`), and afterwards no node anywhere in the
Forest has a missing end or a negative duration. -/
theorem finalize_closes_all (st : ProfilerState)
    (hroots : closedNonnegList st.completed_roots = true)
    (hstacks : ∀ p ∈ st.thread_stacks, ∀ nd ∈ p.2,
      nd.end_time = none ∧ closedNonnegList nd.children = true) :
    (∀ p ∈ (close_dangling_events st).thread_stacks,
      p.2 = ([] : List TraceNode)) ∧
    (close_dangling_events st).completed_roots
      = st.completed_roots
          ++ st.thread_stacks.filterMap (fun p => collapseStack p.2) ∧
    (st.thread_stacks.filterMap (fun p => collapseStack p.2)).length
      = st.thread_stacks.countP (fun p => !p.2.isEmpty) ∧
    closedNonnegList (close_dangling_events st).completed_roots = true := by
  have hforest :
      (close_dangling_events st).completed_roots
        = st.completed_roots
            ++ st.thread_stacks.filterMap (fun p => collapseStack p.2) := by
    simp [close_dangling_events, fold_finalize]
  refine ⟨?_, hforest, filterMap_collapse_length _, ?_⟩
  · intro p hp
    simp only [close_dangling_events, List.mem_map] at hp
    obtain ⟨q, hq, rfl⟩ := hp
    rfl
  · rw [hforest, closedNonnegList_append, hroots, Bool.true_and,
      closedNonnegList_forall]
    intro c hc
    rw [List.mem_filterMap] at hc
    obtain ⟨p, hp, hcol⟩ := hc
    rcases p with ⟨tid, s⟩
    cases s with
    | nil => simp [collapseStack] at hcol
    | cons node rest =>
      simp only [collapseStack, Option.some.injEq] at hcol
      subst hcol
      have hps := hstacks _ hp
      refine collapseNE_closedNonneg rest node ?_ ?_
      · obtain ⟨he, hcs⟩ := hps node (List.mem_cons_self _ _)
        refine ⟨?_, hcs⟩
        rw [he]
        trivial
      · intro q hq; exact hps q (List.mem_cons_of_mem _ hq)

/-- Witness for claim C7: a state with one closed root, thread 1 holding two
dangling open nodes and thread 2 an empty stack satisfies the invariants, and
finalization empties the stacks, appends exactly one new closed root (the
collapse of thread 1's stack) and leaves a Forest free of missing or negative
durations. -/
theorem finalize_closes_all_witness :
    (closedNonnegList [TraceNode.mk "C" 0 (some 2) 2 []] = true) ∧
    (∀ p ∈ [((1 : Int), [TraceNode.mk "B" 1 none 1 [],
                          TraceNode.mk "A" 0 none 1 []]),
            ((2 : Int), ([] : List TraceNode))], ∀ nd ∈ p.2,
      nd.end_time = none ∧ closedNonnegList nd.children = true) ∧
    ((∀ p ∈ (close_dangling_events
        ⟨[(1, [TraceNode.mk "B" 1 none 1 [], TraceNode.mk "A" 0 none 1 []]),
          (2, [])], [TraceNode.mk "C" 0 (some 2) 2 []]⟩).thread_stacks,
      p.2 = ([] : List TraceNode)) ∧
    (close_dangling_events
        ⟨[(1, [TraceNode.mk "B" 1 none 1 [], TraceNode.mk "A" 0 none 1 []]),
          (2, [])], [TraceNode.mk "C" 0 (some 2) 2 []]⟩).completed_roots
      = [TraceNode.mk "C" 0 (some 2) 2 []]
          ++ [(1, [TraceNode.mk "B" 1 none 1 [], TraceNode.mk "A" 0 none 1 []]),
              ((2 : Int), ([] : List TraceNode))].filterMap
                (fun p => collapseStack p.2) ∧
    ([(1, [TraceNode.mk "B" 1 none 1 [], TraceNode.mk "A" 0 none 1 []]),
        ((2 : Int), ([] : List TraceNode))].filterMap
          (fun p => collapseStack p.2)).length
      = [(1, [TraceNode.mk "B" 1 none 1 [], TraceNode.mk "A" 0 none 1 []]),
          ((2 : Int), ([] : List TraceNode))].countP (fun p => !p.2.isEmpty) ∧
    closedNonnegList (close_dangling_events
        ⟨[(1, [TraceNode.mk "B" 1 none 1 [], TraceNode.mk "A" 0 none 1 []]),
          (2, [])], [TraceNode.mk "C" 0 (some 2) 2 []]⟩).completed_roots
      = true) := by
  have h1 : closedNonnegList [TraceNode.mk "C" 0 (some 2) 2 []] = true := by
    decide
  have h2 : ∀ p ∈ [((1 : Int), [TraceNode.mk "B" 1 none 1 [],
                          TraceNode.mk "A" 0 none 1 []]),
            ((2 : Int), ([] : List TraceNode))], ∀ nd ∈ p.2,
      nd.end_time = none ∧ closedNonnegList nd.children = true := by
    decide
  exact ⟨h1, h2, finalize_closes_all _ h1 h2⟩

theorem startAction_single (tid t : Int) (n : String) (s : List TraceNode)
    (roots : List TraceNode) :
    startAction ⟨[(tid, s)], roots⟩ tid t n
      = ⟨[(tid, TraceNode.mk n t none tid [] :: s)], roots⟩ := by
  simp [startAction, lookupStack, setStack]

theorem startAction_empty (tid t : Int) (n : String)
    (roots : List TraceNode) :
    startAction ⟨[], roots⟩ tid t n
      = ⟨[(tid, [TraceNode.mk n t none tid []])], roots⟩ := by
  simp [startAction, lookupStack, setStack]

theorem endAction_match_root (tid t : Int) (n : String) (top : TraceNode)
    (htop : top.name = n) (roots : List TraceNode) :
    endAction ⟨[(tid, [top])], roots⟩ tid t n
      = ⟨[(tid, [])], roots ++ [top.close t]⟩ := by
  simp [endAction, lookupStack, setStack, htop]

theorem endAction_match_parent (tid t : Int) (n : String)
    (top parent : TraceNode) (htop : top.name = n) (s : List TraceNode)
    (roots : List TraceNode) :
    endAction ⟨[(tid, top :: parent :: s)], roots⟩ tid t n
      = ⟨[(tid, parent.addChild (top.close t) :: s)], roots⟩ := by
  simp [endAction, lookupStack, setStack, htop]


theorem processSignals_nil (st : ProfilerState) (tid : Int) :
    processSignals st tid [] = st := rfl

theorem processSignals_cons (st : ProfilerState) (tid t : Int) (sig : Signal)
    (rest : List (Int × Signal)) :
    processSignals st tid ((t, sig) :: rest)
      = processSignals (observe st tid t sig) tid rest := rfl

theorem observe_start (st : ProfilerState) (tid t : Int) (n : String) :
    observe st tid t (Signal.startSig n) = startAction st tid t n := rfl

theorem observe_end (st : ProfilerState) (tid t : Int) (n : String) :
    observe st tid t (Signal.endSig n) = endAction st tid t n := rfl

theorem balForest_process (tid : Int) {l : List (Int × Signal)}
    (h : BalForest l) :
    ∃ Ts : List TraceNode,
      sizeList Ts = countStarts l ∧
      (∀ roots : List TraceNode,
        processSignals ⟨[(tid, [])], roots⟩ tid l
          = ⟨[(tid, [])], roots ++ Ts⟩) ∧
      (∀ (roots : List TraceNode) (p : TraceNode) (s : List TraceNode),
        processSignals ⟨[(tid, p :: s)], roots⟩ tid l
          = ⟨[(tid, p.addChildren Ts :: s)], roots⟩) := by
  induction h with
  | nil =>
    refine ⟨[], rfl, ?_, ?_⟩
    · intro roots; simp [processSignals_nil]
    · intro roots p s; simp [processSignals_nil, addChildren_nil]
  | node n t₁ t₂ inner rest hinner hrest ihi ihr =>
    obtain ⟨Ti, hTi, hiE, hiC⟩ := ihi
    obtain ⟨Tr, hTr, hrE, hrC⟩ := ihr
    have hadd : (TraceNode.mk n t₁ none tid []).addChildren Ti
        = TraceNode.mk n t₁ none tid Ti := by
      simp [TraceNode.addChildren]
    have hsplit :
        ((t₁, Signal.startSig n) :: inner ++ [(t₂, Signal.endSig n)] ++ rest)
          = (t₁, Signal.startSig n)
              :: (inner ++ ((t₂, Signal.endSig n) :: rest)) := by
      simp
    refine ⟨TraceNode.mk n t₁ (some t₂) tid Ti :: Tr, ?_, ?_, ?_⟩
    · show sizeList _
        = countStarts
            ((t₁, Signal.startSig n) :: inner ++ [(t₂, Signal.endSig n)]
              ++ rest)
      rw [hsplit]
      simp only [sizeList, TraceNode.size, countStarts]
      rw [countStarts_append]
      simp only [countStarts]
      omega
    · intro roots
      show processSignals _ tid
          ((t₁, Signal.startSig n) :: inner ++ [(t₂, Signal.endSig n)] ++ rest)
        = _
      rw [hsplit, processSignals_cons, observe_start, startAction_single,
        processSignals_append, hiC roots (TraceNode.mk n t₁ none tid []) [],
        hadd, processSignals_cons, observe_end,
        endAction_match_root tid t₂ n (TraceNode.mk n t₁ none tid Ti) rfl
          roots,
        hrE]
      simp [TraceNode.close, List.append_assoc]
    · intro roots p s
      show processSignals _ tid
          ((t₁, Signal.startSig n) :: inner ++ [(t₂, Signal.endSig n)] ++ rest)
        = _
      rw [hsplit, processSignals_cons, observe_start, startAction_single,
        processSignals_append,
        hiC roots (TraceNode.mk n t₁ none tid []) (p :: s),
        hadd, processSignals_cons, observe_end,
        endAction_match_parent tid t₂ n (TraceNode.mk n t₁ none tid Ti) p rfl
          s roots,
        hrC roots (p.addChild ((TraceNode.mk n t₁ none tid Ti).close t₂)) s]
      simp [TraceNode.close, addChild_addChildren]

/-- Claim C8: for any properly nested, well-formed sequence of N start/end
signal pairs delivered on a single thread — an outermost pair wrapped around
a balanced inner sequence — processing the sequence from a fresh engine and
then running the forced closure leaves that thread's stack empty and the
Forest holding exactly one root: the outermost pair's node, whose tree
contains exactly N nodes (one per pair, `countStarts` counting the pairs). -/
theorem balanced_round_trip (tid t₁ t₂ : Int) (n : String)
    (inner : List (Int × Signal)) (hin : BalForest inner) :
    ∃ T : TraceNode,
      close_dangling_events (processSignals ⟨[], []⟩ tid
          ((t₁, Signal.startSig n) :: inner ++ [(t₂, Signal.endSig n)]))
        = ⟨[(tid, [])], [T]⟩ ∧
      T.name = n ∧
      T.size = countStarts
        ((t₁, Signal.startSig n) :: inner ++ [(t₂, Signal.endSig n)]) := by
  obtain ⟨Ti, hTi, hiE, hiC⟩ := balForest_process tid hin
  have hadd : (TraceNode.mk n t₁ none tid []).addChildren Ti
      = TraceNode.mk n t₁ none tid Ti := by
    simp [TraceNode.addChildren]
  have hsplit :
      ((t₁, Signal.startSig n) :: inner ++ [(t₂, Signal.endSig n)])
        = (t₁, Signal.startSig n)
            :: (inner ++ ((t₂, Signal.endSig n) :: [])) := by
    simp
  refine ⟨TraceNode.mk n t₁ (some t₂) tid Ti, ?_, rfl, ?_⟩
  · rw [hsplit, processSignals_cons, observe_start, startAction_empty,
      processSignals_append, hiC [] (TraceNode.mk n t₁ none tid []) [],
      hadd, processSignals_cons, observe_end, processSignals_nil,
      endAction_match_root tid t₂ n (TraceNode.mk n t₁ none tid Ti) rfl []]
    simp [close_dangling_events, finalizeStack, TraceNode.close]
  · rw [hsplit]
    simp only [TraceNode.size, countStarts]
    rw [countStarts_append]
    simp only [countStarts]
    omega

/-- Witness for claim C8: the balanced two-pair sequence `START A` at 0,
`START B` at 1, `END B` at 2, `END A` at 3 on thread 1 produces, after
forced closure, an empty stack and a sole root named "A" of size 2. -/
theorem balanced_round_trip_witness :
    ∃ T : TraceNode,
      close_dangling_events (processSignals ⟨[], []⟩ 1
          [((0 : Int), Signal.startSig "A"), (1, Signal.startSig "B"),
           (2, Signal.endSig "B"), (3, Signal.endSig "A")])
        = ⟨[(1, [])], [T]⟩ ∧
      T.name = "A" ∧
      T.size = countStarts
        [((0 : Int), Signal.startSig "A"), (1, Signal.startSig "B"),
         (2, Signal.endSig "B"), (3, Signal.endSig "A")] :=
  balanced_round_trip 1 0 3 "A"
    [(1, Signal.startSig "B"), (2, Signal.endSig "B")]
    (BalForest.node "B" 1 2 [] [] BalForest.nil BalForest.nil)

theorem toChrome_shape (pid : Int) (w : TraceNode) :
    w.to_chrome_trace_events pid
      = chromeBegin pid w :: childrenTraceEvents pid w.children
          ++ [chromeEnd pid w] := by
  cases w; rfl

theorem childrenTraceEvents_mem (pid : Int) (c : TraceNode) :
    ∀ cs : List TraceNode, c ∈ cs →
    ∃ pre post, childrenTraceEvents pid cs
      = pre ++ c.to_chrome_trace_events pid ++ post := by
  intro cs
  induction cs with
  | nil => intro h; cases h
  | cons d ds ih =>
    intro hmem
    rcases List.mem_cons.mp hmem with h | h
    · subst h
      exact ⟨[], childrenTraceEvents pid ds, by simp [childrenTraceEvents]⟩
    · obtain ⟨pre, post, heq⟩ := ih h
      exact ⟨d.to_chrome_trace_events pid ++ pre, post,
        by simp [childrenTraceEvents, heq]⟩

theorem trace_nesting_node (pid : Int) {x w : TraceNode}
    (h : Descendant x w) :
    ∃ pre post,
      w.to_chrome_trace_events pid
        = chromeBegin pid w
            :: (pre ++ x.to_chrome_trace_events pid ++ post)
            ++ [chromeEnd pid w] := by
  induction h with
  | child hmem =>
    rename_i w'
    obtain ⟨pre, post, heq⟩ := childrenTraceEvents_mem pid x w'.children hmem
    exact ⟨pre, post, by rw [toChrome_shape, heq]⟩
  | step hdesc hmem ih =>
    rename_i c w'
    obtain ⟨p, q, hpq⟩ := ih
    obtain ⟨pre, post, heq⟩ := childrenTraceEvents_mem pid c w'.children hmem
    refine ⟨pre ++ (chromeBegin pid c :: p),
      (q ++ [chromeEnd pid c]) ++ post, ?_⟩
    rw [toChrome_shape, heq, hpq]
    simp [List.append_assoc]

theorem toChrome_sub (pid : Int) {x w : TraceNode} (h : Descendant x w) :
    ∃ p q, w.to_chrome_trace_events pid
      = p ++ x.to_chrome_trace_events pid ++ q := by
  obtain ⟨pre, post, heq⟩ := trace_nesting_node pid h
  refine ⟨chromeBegin pid w :: pre, post ++ [chromeEnd pid w], ?_⟩
  rw [heq]
  simp [List.append_assoc]

theorem export_foldl (roots : List TraceNode) (acc : List TraceEvent) :
    roots.foldl (fun a root => a ++ root.to_chrome_trace_events 1) acc
      = acc ++ childrenTraceEvents 1 roots := by
  induction roots generalizing acc with
  | nil => simp [childrenTraceEvents]
  | cons r rs ih => simp [childrenTraceEvents, ih, List.append_assoc]

theorem export_eq (roots : List TraceNode) :
    export_chrome_trace roots = childrenTraceEvents 1 roots := by
  unfold export_chrome_trace
  rw [export_foldl]
  simp

/-- Claim C9: in the exported trace-event sequence, for every node `w` of the
Forest (a root or a descendant of a root) and every node `x` in `w`'s strict
subtree, the whole emission of `x` — which itself is `x`'s begin record, its
children's records, and `x`'s end record — lies strictly between `w`'s own
begin record and `w`'s own end record: the export is a depth-first pre-order
emission of paired begin/end records. -/
theorem trace_nesting (roots : List TraceNode) (w x : TraceNode)
    (hw : w ∈ roots ∨ ∃ r ∈ roots, Descendant w r) (hx : Descendant x w) :
    ∃ (pre mid₁ mid₂ post : List TraceEvent),
      export_chrome_trace roots
        = pre ++ (chromeBegin 1 w
            :: (mid₁ ++ x.to_chrome_trace_events 1 ++ mid₂)
            ++ [chromeEnd 1 w]) ++ post ∧
      x.to_chrome_trace_events 1
        = chromeBegin 1 x :: childrenTraceEvents 1 x.children
            ++ [chromeEnd 1 x] := by
  have hcontig : ∃ P Q, childrenTraceEvents 1 roots
      = P ++ w.to_chrome_trace_events 1 ++ Q := by
    rcases hw with hmem | ⟨r, hr, hdesc⟩
    · exact childrenTraceEvents_mem 1 w roots hmem
    · obtain ⟨P, Q, hPQ⟩ := childrenTraceEvents_mem 1 r roots hr
      obtain ⟨p, q, hpq⟩ := toChrome_sub 1 hdesc
      exact ⟨P ++ p, q ++ Q, by rw [hPQ, hpq]; simp [List.append_assoc]⟩
  obtain ⟨P, Q, hPQ⟩ := hcontig
  obtain ⟨mid₁, mid₂, hmid⟩ := trace_nesting_node 1 hx
  refine ⟨P, mid₁, mid₂, Q, ?_, toChrome_shape 1 x⟩
  rw [export_eq, hPQ, hmid]

/-- Witness for claim C9: in the export of the single root `A` (span 0-10 on
thread 1) with child `B` (span 1-5), the records of `B` sit between `A`'s
begin and end records. -/
theorem trace_nesting_witness :
    ∃ (pre mid₁ mid₂ post : List TraceEvent),
      export_chrome_trace
          [TraceNode.mk "A" 0 (some 10) 1 [TraceNode.mk "B" 1 (some 5) 1 []]]
        = pre ++ (chromeBegin 1
              (TraceNode.mk "A" 0 (some 10) 1
                [TraceNode.mk "B" 1 (some 5) 1 []])
            :: (mid₁ ++ (TraceNode.mk "B" 1 (some 5) 1
                  []).to_chrome_trace_events 1 ++ mid₂)
            ++ [chromeEnd 1
              (TraceNode.mk "A" 0 (some 10) 1
                [TraceNode.mk "B" 1 (some 5) 1 []])]) ++ post ∧
      (TraceNode.mk "B" 1 (some 5) 1 []).to_chrome_trace_events 1
        = chromeBegin 1 (TraceNode.mk "B" 1 (some 5) 1 [])
            :: childrenTraceEvents 1
                (TraceNode.mk "B" 1 (some 5) 1 []).children
            ++ [chromeEnd 1 (TraceNode.mk "B" 1 (some 5) 1 [])] :=
  trace_nesting
    [TraceNode.mk "A" 0 (some 10) 1 [TraceNode.mk "B" 1 (some 5) 1 []]]
    (TraceNode.mk "A" 0 (some 10) 1 [TraceNode.mk "B" 1 (some 5) 1 []])
    (TraceNode.mk "B" 1 (some 5) 1 [])
    (Or.inl (by simp))
    (Descendant.child (by simp [TraceNode.children]))
